import Mathlib

/-!
Verification of the Knuth-Plass line-breaking implementation in
src/c++/knuth_plass.cpp.

The C++ code is shallowly embedded here.  Numeric types (float, double,
long double) are modelled by the rationals.  The parallel specification
vectors of KnuthPlassParagraph are modelled by parallel lists; the opaque
client payload is modelled by a natural number.  Fallible operations
(reading the last element of an empty vector, dereferencing a null
pointer) surface as an explicit error value.
-/

namespace KnuthPlass

/-- The value representing infinity in the source (a large finite sentinel). -/
def INF : ℚ := 10000

/-- The different specification types there are (enum SpecType). -/
inductive SpecType : Type where
  | BOX
  | GLUE
  | PENALTY
deriving DecidableEq

/-- A break node (class Break).  Field order follows the C++ constructor:
position, line, fitness_class, demerits, ratio, previous.  The
shared_ptr previous link is modelled by a nested Option. -/
inductive Break : Type where
  | mk : ℕ → ℕ → ℚ → ℚ → ℚ → Option Break → Break

/-- Structural decidable equality for Break (the derive handler does not
support the nested Option occurrence, so it is written out). -/
def Break.decEq : (a b : Break) → Decidable (a = b)
  | .mk p1 l1 f1 d1 r1 pr1, .mk p2 l2 f2 d2 r2 pr2 =>
    have hpr : Decidable (pr1 = pr2) :=
      match pr1, pr2 with
      | none, none => isTrue rfl
      | none, some _ => isFalse (by simp)
      | some _, none => isFalse (by simp)
      | some x, some y =>
        match Break.decEq x y with
        | isTrue h => isTrue (by rw [h])
        | isFalse h => isFalse (by simpa using h)
    if h1 : p1 = p2 then
      if h2 : l1 = l2 then
        if h3 : f1 = f2 then
          if h4 : d1 = d2 then
            if h5 : r1 = r2 then
              match hpr with
              | isTrue h6 => isTrue (by rw [h1, h2, h3, h4, h5, h6])
              | isFalse h6 => isFalse (by intro hh; injection hh; contradiction)
            else isFalse (by intro hh; injection hh; contradiction)
          else isFalse (by intro hh; injection hh; contradiction)
        else isFalse (by intro hh; injection hh; contradiction)
      else isFalse (by intro hh; injection hh; contradiction)
    else isFalse (by intro hh; injection hh; contradiction)

instance : DecidableEq Break := Break.decEq

def Break.position : Break → ℕ
  | .mk p _ _ _ _ _ => p

def Break.line : Break → ℕ
  | .mk _ l _ _ _ _ => l

def Break.fitness_class : Break → ℚ
  | .mk _ _ f _ _ _ => f

def Break.demerits : Break → ℚ
  | .mk _ _ _ d _ _ => d

def Break.ratio : Break → ℚ
  | .mk _ _ _ _ r _ => r

def Break.previous : Break → Option Break
  | .mk _ _ _ _ _ pr => pr

/-- The first breakpoint created at the start of the paragraph:
Break(0, 0, 1, 0, 0, nullptr). -/
def Break.origin : Break := .mk 0 0 1 0 0 none

/-- The paragraph container: seven parallel specification vectors
(class KnuthPlassParagraph).  The client payload type is fixed to ℕ. -/
structure KnuthPlassParagraph : Type where
  type    : List SpecType
  width   : List ℚ
  stretch : List ℚ
  shrink  : List ℚ
  penalty : List ℚ
  flagged : List Bool
  value   : List ℕ
deriving DecidableEq

/-- A freshly constructed paragraph: all seven vectors empty. -/
def kpEmpty : KnuthPlassParagraph := ⟨[], [], [], [], [], [], []⟩

/-- void add_glue(float shrink, float width, float stretch, ValueType value). -/
def KnuthPlassParagraph.add_glue (par : KnuthPlassParagraph)
    (shrink width stretch : ℚ) (value : ℕ) : KnuthPlassParagraph :=
  ⟨par.type ++ [SpecType.GLUE],
   par.width ++ [width],
   par.stretch ++ [stretch],
   par.shrink ++ [shrink],
   par.penalty ++ [0],
   par.flagged ++ [false],
   par.value ++ [value]⟩

/-- void add_penalty(float width, float penalty, bool flagged, ValueType value). -/
def KnuthPlassParagraph.add_penalty (par : KnuthPlassParagraph)
    (width penalty : ℚ) (flagged : Bool) (value : ℕ) : KnuthPlassParagraph :=
  ⟨par.type ++ [SpecType.PENALTY],
   par.width ++ [width],
   par.stretch ++ [0],
   par.shrink ++ [0],
   par.penalty ++ [penalty],
   par.flagged ++ [flagged],
   par.value ++ [value]⟩

/-- void add_box(float width, ValueType value). -/
def KnuthPlassParagraph.add_box (par : KnuthPlassParagraph)
    (width : ℚ) (value : ℕ) : KnuthPlassParagraph :=
  ⟨par.type ++ [SpecType.BOX],
   par.width ++ [width],
   par.stretch ++ [0],
   par.shrink ++ [0],
   par.penalty ++ [0],
   par.flagged ++ [false],
   par.value ++ [value]⟩

/-- double r_width(SuperULong i, double ratio): the actual width an item
takes on a line set with the given adjustment ratio. -/
def KnuthPlassParagraph.r_width (par : KnuthPlassParagraph) (i : ℕ) (ratio : ℚ) : ℚ :=
  if ratio < 0 then par.width.getD i 0 - ratio * par.shrink.getD i 0
  else par.width.getD i 0 + ratio * par.stretch.getD i 0

/-- The sum_width prefix-sum array: sum_width[i] holds the running
width_sum before item i is added, i.e. the sum of width over items
0..i-1 (the populate-sums loop adds width[i] for every item,
regardless of its type). -/
def sum_width (par : KnuthPlassParagraph) (i : ℕ) : ℚ :=
  (par.width.take i).sum

/-- The sum_stretch prefix-sum array. -/
def sum_stretch (par : KnuthPlassParagraph) (i : ℕ) : ℚ :=
  (par.stretch.take i).sum

/-- The sum_shrink prefix-sum array. -/
def sum_shrink (par : KnuthPlassParagraph) (i : ℕ) : ℚ :=
  (par.shrink.take i).sum

/-- The ideal_width local of compute_adjustment_ratio:
sum_width[pos2] - sum_width[pos1], plus width[pos2] when the item at
pos2 is a penalty. -/
def line_ideal_width (par : KnuthPlassParagraph) (pos1 pos2 : ℕ) : ℚ :=
  let w := sum_width par pos2 - sum_width par pos1
  if par.type.getD pos2 SpecType.BOX = SpecType.PENALTY then w + par.width.getD pos2 0
  else w

/-- The available_width computation in compute_adjustment_ratio: the
entry at index line, or the last entry once the list is too short.
Reading the last entry of an empty vector is undefined behaviour in the
source; it is surfaced here as none. -/
def available_width (line_lengths : List ℚ) (line : ℕ) : Option ℚ :=
  if line < line_lengths.length then some (line_lengths.getD line 0)
  else line_lengths.getLast?

/-- double compute_adjustment_ratio(SuperULong pos1, SuperULong pos2,
SuperULong line, std::vector<double> *line_lengths). -/
def compute_adjustment_ratio (par : KnuthPlassParagraph)
    (pos1 pos2 line : ℕ) (line_lengths : List ℚ) : Option ℚ :=
  match available_width line_lengths line with
  | none => none
  | some available =>
    let iw := line_ideal_width par pos1 pos2
    some (if iw < available then
            let y := sum_stretch par pos2 - sum_stretch par pos1
            if 0 < y then (available - iw) / y else INF
          else if available < iw then
            let z := sum_shrink par pos2 - sum_shrink par pos1
            if 0 < z then (available - iw) / z else INF
          else 0)

/-- bool is_feasible_breakpoint(SuperULong i). -/
def is_feasible_breakpoint (par : KnuthPlassParagraph) (i : ℕ) : Bool :=
  if par.type.getD i SpecType.BOX = SpecType.PENALTY ∧ par.penalty.getD i 0 < INF then
    true
  else if 0 < i ∧ par.type.getD (i - 1) SpecType.BOX = SpecType.BOX
      ∧ par.type.getD i SpecType.BOX = SpecType.GLUE then
    true
  else
    false

/-- The index search at the top of add_active_node: the number of leading
active nodes whose line number is strictly below the given line. -/
def find_insert_index : List Break → ℕ → ℕ
  | [], _ => 0
  | a :: rest, l => if a.line < l then find_insert_index rest l + 1 else 0

/-- The second scan of add_active_node: among the run of active nodes
with the same line number as the node, look for one with the same
fitness class. -/
def scan_same_line : List Break → Break → Bool
  | [], _ => false
  | a :: rest, node =>
    if a.line = node.line then
      if a.fitness_class = node.fitness_class then true
      else scan_same_line rest node
    else false

/-- void add_active_node(std::vector<std::shared_ptr<Break>> *active_nodes,
std::shared_ptr<Break> node): insert keeping the list sorted by line,
silently dropping the node when an active node with the same
(line, fitness_class) is already present. -/
def add_active_node (active_nodes : List Break) (node : Break) : List Break :=
  let insert_index := find_insert_index active_nodes node.line
  if scan_same_line (active_nodes.drop insert_index) node then active_nodes
  else active_nodes.take insert_index ++ node :: active_nodes.drop insert_index

/-- Error outcomes of the embedded computation.  The source reports no
errors itself; IndexOutOfRange models the undefined accesses it can make
(vector::back() on an empty vector, dereferencing a null shared_ptr).
EmptyLineLengths and NoFeasibleBreak exist only in the specification. -/
inductive KPError : Type where
  | EmptyLineLengths
  | NoFeasibleBreak
  | IndexOutOfRange
deriving DecidableEq

/-- The base demerit arithmetic of the main loop (lines 347-353 of the
source), for adjustment ratio r and penalty p = penalty[B]. -/
def base_demerits (r p : ℚ) : ℚ :=
  if 0 ≤ p then 1 + 100 * ((|r| ^ (3 : ℕ) + p) ^ (3 : ℕ))
  else if INF < p then 1 + 100 * ((|r| ^ (3 : ℕ)) ^ (2 : ℕ)) - p ^ (2 : ℕ)
  else 1 + 100 * ((|r| ^ (3 : ℕ)) ^ (2 : ℕ))

/-- The fitness-class computation of the main loop. -/
def fitness_class_of (r : ℚ) : ℚ :=
  if r < -(1/2) then 0
  else if r ≤ 1/2 then 1
  else if r ≤ 1 then 2
  else 3

/-- The full demerit value given to a new break node at B extending the
active node A with ratio r: base demerits, plus flagged_demerit when
both ends are flagged, plus fitness_demerit when the fitness class
jumps by more than one.  (The source does not add A's accumulated
demerits.) -/
def line_demerits (par : KnuthPlassParagraph) (fitness_demerit flagged_demerit : ℚ)
    (B : ℕ) (A : Break) (r : ℚ) : ℚ :=
  let p := par.penalty.getD B 0
  let d0 := base_demerits r p
  let d1 := if par.flagged.getD A.position false ∧ par.flagged.getD B false then
              d0 + flagged_demerit
            else d0
  if 1 < |fitness_class_of r - A.fitness_class| then d1 + fitness_demerit else d1

/-- The break node pushed onto breaks_to_activate for the line from A to B. -/
def new_node (par : KnuthPlassParagraph) (fitness_demerit flagged_demerit : ℚ)
    (B : ℕ) (A : Break) (r : ℚ) : Break :=
  Break.mk B (A.line + 1) (fitness_class_of r)
    (line_demerits par fitness_demerit flagged_demerit B A r) r (some A)

/-- The inner loop over the active nodes at a feasible breakpoint B:
collects breaks_to_deactivate and breaks_to_activate, in iteration
order. -/
def gather (par : KnuthPlassParagraph) (line_lengths : List ℚ)
    (tolerance fitness_demerit flagged_demerit : ℚ) (B : ℕ) :
    List Break → Except KPError (List Break × List Break)
  | [] => .ok ([], [])
  | A :: rest =>
    match compute_adjustment_ratio par A.position B A.line line_lengths with
    | none => .error KPError.IndexOutOfRange
    | some r =>
      match gather par line_lengths tolerance fitness_demerit flagged_demerit B rest with
      | .error e => .error e
      | .ok (toDeactivate, toActivate) =>
        .ok (if r < -1 ∨ INF < par.penalty.getD B 0 then A :: toDeactivate
             else toDeactivate,
             if -1 ≤ r ∧ r ≤ tolerance then
               new_node par fitness_demerit flagged_demerit B A r :: toActivate
             else toActivate)

/-- Removal of one active node by identity (the pointer-equality scan of
the deactivation loop): drop the first occurrence, if any. -/
def erase_break : List Break → Break → List Break
  | [], _ => []
  | a :: rest, node => if a = node then rest else a :: erase_break rest node

/-- The deactivation loop: remove each listed break, but never remove
the last remaining active node (the loop breaks out once only one
active node is left). -/
def apply_deactivations (active_nodes : List Break) : List Break → List Break
  | [] => active_nodes
  | node :: rest =>
    if active_nodes.length = 1 then active_nodes
    else apply_deactivations (erase_break active_nodes node) rest

/-- The activation loop: insert every newly found break via add_active_node. -/
def apply_activations (active_nodes : List Break) : List Break → List Break
  | [] => active_nodes
  | node :: rest => apply_activations (add_active_node active_nodes node) rest

/-- One iteration of the outer loop of calc_knuth_plass_breaks for item
index B: if B is a feasible breakpoint, gather the candidate lists,
apply deactivations, then activations. -/
def step (par : KnuthPlassParagraph) (line_lengths : List ℚ)
    (tolerance fitness_demerit flagged_demerit : ℚ)
    (active_nodes : List Break) (B : ℕ) : Except KPError (List Break) :=
  if is_feasible_breakpoint par B then
    match gather par line_lengths tolerance fitness_demerit flagged_demerit B active_nodes with
    | .error e => .error e
    | .ok (toDeactivate, toActivate) =>
      .ok (apply_activations (apply_deactivations active_nodes toDeactivate) toActivate)
  else .ok active_nodes

/-- The outer loop over item indices. -/
def run_pass (par : KnuthPlassParagraph) (line_lengths : List ℚ)
    (tolerance fitness_demerit flagged_demerit : ℚ) :
    List ℕ → List Break → Except KPError (List Break)
  | [], active_nodes => .ok active_nodes
  | B :: rest, active_nodes =>
    match step par line_lengths tolerance fitness_demerit flagged_demerit active_nodes B with
    | .error e => .error e
    | .ok active2 => run_pass par line_lengths tolerance fitness_demerit flagged_demerit rest active2

/-- The terminal scan for the active node with the lowest demerits
(A is seeded with the first active node and replaced on strictly
smaller demerits). -/
def select_min (active_nodes : List Break) : Option Break :=
  match active_nodes with
  | [] => none
  | A0 :: rest =>
    some (rest.foldl (fun A br => if br.demerits < A.demerits then br else A) A0)

/-- The looseness loop of the source, verbatim: best is declared as
unsigned 0 and never reassigned; delta is the unsigned difference
br->line - A->line (wrapping modulo 2^64); d starts at INF and receives
the truncation of a double demerit value; b starts null.  The returned
value is b, which may still be null. -/
def loose_loop (looseness : ℚ) (A : Break) :
    List Break → ℕ → ℕ → Option Break → Option Break
  | [], _, _, b => b
  | br :: rest, best, d, b =>
    let delta : ℕ := (br.line + 2 ^ 64 - A.line) % 2 ^ 64
    if (looseness ≤ (delta : ℚ) ∧ delta < best) ∨ (best < delta ∨ (delta : ℚ) < looseness) then
      loose_loop looseness A rest best (Int.toNat ⌊br.demerits⌋) (some br)
    else if delta = best ∧ br.demerits < (d : ℚ) then
      loose_loop looseness A rest best (Int.toNat ⌊br.demerits⌋) (some br)
    else loose_loop looseness A rest best d b

/-- The looseness handling block: scan the active nodes starting from
best = 0, d = INF, b = null. -/
def looseness_select (looseness : ℚ) (A : Break) (active_nodes : List Break) : Option Break :=
  loose_loop looseness A active_nodes 0 10000 none

/-- The final reconstruction: walk previous links, collecting every
node until the origin (exclusive), then reverse so that index 0 holds
the break for line 1. -/
def collect_breaks : Break → List Break
  | .mk _ _ _ _ _ none => []
  | .mk p l f d r (some prev) => collect_breaks prev ++ [Break.mk p l f d r (some prev)]

/-- void calc_knuth_plass_breaks(std::vector<double> *line_lengths,
double looseness, double tolerance, double fitness_demerit,
double flagged_demerit): the whole search.  The source stores the
result in this->breaks; here it is returned.  A null-pointer
dereference (b still null after the looseness loop) and the
out-of-range access inside compute_adjustment_ratio surface as
IndexOutOfRange. -/
def calc_knuth_plass_breaks (par : KnuthPlassParagraph) (line_lengths : List ℚ)
    (looseness tolerance fitness_demerit flagged_demerit : ℚ) :
    Except KPError (List Break) :=
  match run_pass par line_lengths tolerance fitness_demerit flagged_demerit
      (List.range par.type.length) [Break.origin] with
  | .error e => .error e
  | .ok active_nodes =>
    match select_min active_nodes with
    | none => .error KPError.IndexOutOfRange
    | some A =>
      if looseness ≠ 0 then
        match looseness_select looseness A active_nodes with
        | none => .error KPError.IndexOutOfRange
        | some b => .ok (collect_breaks b)
      else .ok (collect_breaks A)

/-! Concrete paragraphs used by the claim theorems. -/

/-- A paragraph starting with a width-5 penalty followed by a box:
exercises the treatment of penalty widths in the prefix sums. -/
def par1 : KnuthPlassParagraph :=
  (kpEmpty.add_penalty 5 0 false 0).add_box 3 0

/-- A box followed by a forced break (penalty -INF). -/
def par3 : KnuthPlassParagraph :=
  (kpEmpty.add_box 4 0).add_penalty 0 (-INF) false 0

/-- Box 4, glue (shrink 1, width 2, stretch 1), box 4, forced break:
a line that must shrink (ratio -1) to fit a line length of 9. -/
def par5 : KnuthPlassParagraph :=
  (((kpEmpty.add_box 4 0).add_glue 1 2 1 0).add_box 4 0).add_penalty 0 (-INF) false 0

/-- A single box of width 10 followed by the standard paragraph
terminator (penalty +INF, glue(0,0,INF), penalty -INF): with line
length 3 and no shrink, no candidate line is ever feasible. -/
def par6 : KnuthPlassParagraph :=
  (((kpEmpty.add_box 10 0).add_penalty 0 INF false 0).add_glue 0 0 INF 0).add_penalty
    0 (-INF) true 0

/-- A single box of width 1 with no glue after it: contains no feasible
breakpoint at all, so no adjustment ratio is ever computed. -/
def par9 : KnuthPlassParagraph := kpEmpty.add_box 1 0

/-- Two two-letter words (boxes of width 1) separated by glue
(shrink 1, width 2, stretch 1), with the standard terminator.  With
line length 2 the run returns exactly one break, at the glue. -/
def parW : KnuthPlassParagraph :=
  (((((((kpEmpty.add_box 1 0).add_box 1 0).add_glue 1 2 1 0).add_box 1 0).add_box
    1 0).add_penalty 0 INF false 0).add_glue 0 0 INF 0).add_penalty 0 (-INF) true 0

/-- The single break node produced by the parW run. -/
def bsW : List Break := [Break.mk 2 1 1 1 0 (some Break.origin)]

/-! Dedicated survivor nodes for the looseness-selection claim: three
terminal candidates on lines 2, 3 and 4, the line-2 one having the
lowest demerits. -/

def nL2 : Break := .mk 5 2 1 1 0 (some Break.origin)

def nL3 : Break := .mk 9 3 1 5 0 (some Break.origin)

def nL4 : Break := .mk 12 4 1 5 0 (some Break.origin)

/-! Reference definitions taken from the wording of the specification,
for comparison with the embedded source code. -/

/-- Reference (spec wording, section 4.2): the natural width of an item,
with penalty items contributing 0. -/
def natural_width_claim (par : KnuthPlassParagraph) (k : ℕ) : ℚ :=
  if par.type.getD k SpecType.BOX = SpecType.PENALTY then 0 else par.width.getD k 0

/-- Reference (spec wording, section 4.2): W[i] as the sum of natural
widths of items 0..i-1, penalties contributing 0. -/
def sum_width_claim (par : KnuthPlassParagraph) (i : ℕ) : ℚ :=
  ((List.range i).map (natural_width_claim par)).sum

/-- Reference (spec wording, section 4.5): the canonical three-branch
Knuth-Plass base demerits. -/
def base_demerits_claim (r p : ℚ) : ℚ :=
  if 0 ≤ p then (1 + 100 * |r| ^ (3 : ℕ) + p) ^ (3 : ℕ)
  else if -INF < p then (1 + 100 * |r| ^ (3 : ℕ)) ^ (2 : ℕ) - p ^ (2 : ℕ)
  else (1 + 100 * |r| ^ (3 : ℕ)) ^ (2 : ℕ)

/-- Reference (claim C5 wording): an item set width of natural width
plus ratio times stretch for nonnegative ratios, natural width plus
ratio times shrink (a reduction) for negative ratios. -/
def r_width_claim (par : KnuthPlassParagraph) (i : ℕ) (ratio : ℚ) : ℚ :=
  if ratio < 0 then par.width.getD i 0 + ratio * par.shrink.getD i 0
  else par.width.getD i 0 + ratio * par.stretch.getD i 0

/-! The append interface as a free monoid of operations, for the
parallel-vector invariant. -/

/-- One call to add_box, add_glue or add_penalty, with its arguments. -/
inductive AddOp : Type where
  | box (width : ℚ) (value : ℕ)
  | glue (shrink width stretch : ℚ) (value : ℕ)
  | pen (width penalty : ℚ) (flagged : Bool) (value : ℕ)

/-- Apply one append operation to a paragraph. -/
def applyOp (par : KnuthPlassParagraph) : AddOp → KnuthPlassParagraph
  | .box w v => par.add_box w v
  | .glue sh w st v => par.add_glue sh w st v
  | .pen w p f v => par.add_penalty w p f v

/-- Apply a sequence of append operations to the empty paragraph. -/
def applyOps (ops : List AddOp) : KnuthPlassParagraph :=
  ops.foldl applyOp kpEmpty

/-- All seven specification vectors have the same length. -/
def parallel_lengths (par : KnuthPlassParagraph) : Prop :=
  par.width.length = par.type.length ∧ par.stretch.length = par.type.length ∧
  par.shrink.length = par.type.length ∧ par.penalty.length = par.type.length ∧
  par.flagged.length = par.type.length ∧ par.value.length = par.type.length

/-! Invariant predicates over the active-node frontier. -/

/-- Every non-origin node along the previous-chain was created with a
ratio inside [-1, tolerance]. -/
def good_chain (tolerance : ℚ) : Break → Prop
  | .mk _ _ _ _ _ none => True
  | .mk _ _ _ _ r (some prev) => -1 ≤ r ∧ r ≤ tolerance ∧ good_chain tolerance prev

/-- The frontier is sorted by line number, ascending. -/
def sorted_by_line (l : List Break) : Prop :=
  l.Pairwise (fun a b => a.line ≤ b.line)

/-- No two frontier nodes share the same (line, fitness_class) pair. -/
def unique_line_fc (l : List Break) : Prop :=
  l.Pairwise (fun a b => a.line ≠ b.line ∨ a.fitness_class ≠ b.fitness_class)

/-- The running invariant of the forward pass: the frontier is
non-empty, line-sorted, (line, fitness_class)-unique, and every node
records only ratios inside [-1, tolerance] along its chain. -/
def frontier_inv (tolerance : ℚ) (l : List Break) : Prop :=
  l ≠ [] ∧ sorted_by_line l ∧ unique_line_fc l ∧ ∀ n ∈ l, good_chain tolerance n

/-! ## Helper lemmas -/

theorem take_sum_eq (l : List ℚ) : ∀ i : ℕ,
    (l.take i).sum = ∑ k ∈ Finset.range i, l.getD k 0 := by
  induction l with
  | nil => intro i; simp
  | cons a rest ih =>
    intro i
    cases i with
    | zero => simp
    | succ n =>
      rw [List.take_succ_cons, List.sum_cons, ih n, Finset.sum_range_succ']
      simp [add_comm]

/-! ## Claim C1: prefix sums and penalty widths -/

/-- Claim C1 counterexample: the populate-sums loop of
calc_knuth_plass_breaks adds width[i] for every item, penalties
included.  For a paragraph whose first item is a width-5 penalty,
sum_width[1] is 5 in the code, while the claimed definition (penalties
contribute 0) yields 0. -/
theorem C1_counterexample :
    sum_width par1 1 = 5 ∧ sum_width_claim par1 1 = 0 ∧
    sum_width par1 1 ≠ sum_width_claim par1 1 := by
  norm_num [sum_width, sum_width_claim, natural_width_claim, par1, kpEmpty,
    KnuthPlassParagraph.add_penalty, KnuthPlassParagraph.add_box, List.range_succ]

/-- Claim C1 amended: W[i] is the sum of the width fields of items
0..i-1 with penalty items contributing their width field as well; the
width of the candidate break itself enters the measurement only inside
compute_adjustment_ratio, exactly when the item at the right end is a
penalty. -/
theorem C1_amended_width_sums :
    (∀ (par : KnuthPlassParagraph) (i : ℕ),
        sum_width par i = ∑ k ∈ Finset.range i, par.width.getD k 0)
    ∧ (∀ (par : KnuthPlassParagraph) (pos1 pos2 : ℕ),
        line_ideal_width par pos1 pos2 =
          sum_width par pos2 - sum_width par pos1 +
            (if par.type.getD pos2 SpecType.BOX = SpecType.PENALTY
             then par.width.getD pos2 0 else 0)) := by
  constructor
  · intro par i
    exact take_sum_eq par.width i
  · intro par pos1 pos2
    simp only [line_ideal_width]
    split_ifs <;> ring

/-! ## Claim C2: the base demerit formula -/

/-- Claim C2 refuted (code bug): at ratio 1 and penalty 0 the source
computes 1 + 100 * ((|r|^3 + p)^3) = 101, whereas the reference
three-branch definition of the claim gives (1 + 100*|r|^3 + p)^3 =
1030301.  (The finite-negative-penalty branch of the source is
unreachable besides: its guard INF < p cannot hold when p < 0.) -/
theorem C2_demerit_formula_bug :
    base_demerits 1 0 = 101 ∧ base_demerits_claim 1 0 = 1030301 ∧
    base_demerits 1 0 ≠ base_demerits_claim 1 0 := by
  norm_num [base_demerits, base_demerits_claim, INF]

/-! ## Claim C4: looseness selection -/

/-- Claim C4 refuted (code bug): on the frontier [nL2, nL3, nL4] with
looseness 1, the demerit-optimal survivor is nL2 (line 2), so the
selection should return the survivor whose line minus 2 is closest to
1, namely nL3 (line 3, distance 0).  The source loop, whose variable
best is initialized to 0 and never updated, instead returns nL4
(line 4, distance 1). -/
theorem C4_looseness_selection_bug :
    select_min [nL2, nL3, nL4] = some nL2 ∧
    looseness_select 1 nL2 [nL2, nL3, nL4] = some nL4 ∧
    |(nL3.line : ℚ) - (nL2.line : ℚ) - 1| < |(nL4.line : ℚ) - (nL2.line : ℚ) - 1| := by
  refine ⟨?_, ?_, ?_⟩
  · norm_num [select_min, nL2, nL3, nL4, Break.demerits]
  · norm_num [looseness_select, loose_loop, nL2, nL3, nL4, Break.line,
      Break.demerits, Int.toNat_ofNat]
  · norm_num [nL2, nL3, nL4, Break.line]

/-! ## Claim C5: the round-trip property and r_width -/

/-- Claim C5 refuted (code bug): for the line [Box 4, Glue(width 2,
stretch 1, shrink 1), Box 4] broken at a forced penalty with line
length 9, the adjustment ratio is -1, but summing the per-item set
widths of r_width gives 11, not the line length: for negative ratios
r_width computes width - ratio * shrink, widening the glue instead of
shrinking it.  The claimed set width (width + ratio * shrink) sums to
the line length 9. -/
theorem C5_r_width_sign_bug :
    compute_adjustment_ratio par5 0 3 0 [9] = some (-1) ∧
    ((List.range 3).map (fun i => par5.r_width i (-1))).sum = 11 ∧
    ((List.range 3).map (fun i => r_width_claim par5 i (-1))).sum = 9 := by
  refine ⟨?_, ?_, ?_⟩ <;>
    norm_num [compute_adjustment_ratio, available_width, line_ideal_width, sum_width,
      sum_stretch, sum_shrink, INF, par5, kpEmpty, KnuthPlassParagraph.add_box,
      KnuthPlassParagraph.add_glue, KnuthPlassParagraph.add_penalty,
      KnuthPlassParagraph.r_width, r_width_claim, List.range_succ]

/-! ## Claim C10: the seven parallel vectors -/

/-- Claim C10 confirmed: after any sequence of add_box, add_glue and
add_penalty calls the seven parallel vectors have equal length, every
append operation grows each of the seven by exactly one entry, and the
fields unused by the appended variant are filled with 0 or false. -/
theorem C10_parallel_vectors :
    (∀ ops : List AddOp, parallel_lengths (applyOps ops))
    ∧ (∀ (par : KnuthPlassParagraph) (op : AddOp),
        (applyOp par op).type.length = par.type.length + 1
        ∧ (applyOp par op).width.length = par.width.length + 1
        ∧ (applyOp par op).stretch.length = par.stretch.length + 1
        ∧ (applyOp par op).shrink.length = par.shrink.length + 1
        ∧ (applyOp par op).penalty.length = par.penalty.length + 1
        ∧ (applyOp par op).flagged.length = par.flagged.length + 1
        ∧ (applyOp par op).value.length = par.value.length + 1)
    ∧ (∀ (par : KnuthPlassParagraph) (w : ℚ) (v : ℕ),
        (par.add_box w v).stretch = par.stretch ++ [0]
        ∧ (par.add_box w v).shrink = par.shrink ++ [0]
        ∧ (par.add_box w v).penalty = par.penalty ++ [0]
        ∧ (par.add_box w v).flagged = par.flagged ++ [false])
    ∧ (∀ (par : KnuthPlassParagraph) (sh w st : ℚ) (v : ℕ),
        (par.add_glue sh w st v).penalty = par.penalty ++ [0]
        ∧ (par.add_glue sh w st v).flagged = par.flagged ++ [false])
    ∧ (∀ (par : KnuthPlassParagraph) (w p : ℚ) (f : Bool) (v : ℕ),
        (par.add_penalty w p f v).stretch = par.stretch ++ [0]
        ∧ (par.add_penalty w p f v).shrink = par.shrink ++ [0]) := by
  refine ⟨?_, ?_, ?_, ?_, ?_⟩
  · intro ops
    have key : ∀ (l : List AddOp) (par : KnuthPlassParagraph), parallel_lengths par →
        parallel_lengths (l.foldl applyOp par) := by
      intro l
      induction l with
      | nil => intro par h; exact h
      | cons op rest ih =>
        intro par h
        refine ih _ ?_
        cases op <;>
          simp_all [parallel_lengths, applyOp, KnuthPlassParagraph.add_box,
            KnuthPlassParagraph.add_glue, KnuthPlassParagraph.add_penalty]
    exact key ops kpEmpty (by simp [parallel_lengths, kpEmpty])
  · intro par op
    cases op <;>
      simp [applyOp, KnuthPlassParagraph.add_box, KnuthPlassParagraph.add_glue,
        KnuthPlassParagraph.add_penalty]
  · intro par w v
    simp [KnuthPlassParagraph.add_box]
  · intro par sh w st v
    simp [KnuthPlassParagraph.add_glue]
  · intro par w p f v
    simp [KnuthPlassParagraph.add_penalty]

/-! ## Claim C3: forced breaks and deactivation -/

/-- Claim C3 refuted (code bug): the deactivation test of the main loop
is r < -1 or penalty[B] > INF, and a forced break carries penalty
-INF, so the second disjunct is false exactly when it should fire (the
adjacent source comment says a forced break must deactivate A).  At the
forced break of par3 (item 1, penalty -INF) the origin node has ratio
0, so after the step the origin is still active alongside the new
candidate: a later line may still ignore the forced break. -/
theorem C3_forced_break_keeps_active_nodes :
    par3.penalty.getD 1 0 ≤ -INF ∧
    is_feasible_breakpoint par3 1 = true ∧
    step par3 [4] 1 100 100 [Break.origin] 1 =
      Except.ok [Break.origin, Break.mk 1 1 1 1 0 (some Break.origin)] := by
  refine ⟨?_, ?_, ?_⟩
  · norm_num [par3, kpEmpty, KnuthPlassParagraph.add_box, KnuthPlassParagraph.add_penalty, INF]
  · norm_num [is_feasible_breakpoint, par3, kpEmpty, KnuthPlassParagraph.add_box,
      KnuthPlassParagraph.add_penalty, INF]
  · norm_num [step, gather, is_feasible_breakpoint, compute_adjustment_ratio,
      available_width, line_ideal_width, sum_width, sum_stretch, sum_shrink, INF,
      new_node, line_demerits, base_demerits, fitness_class_of, apply_deactivations,
      apply_activations, add_active_node, find_insert_index, scan_same_line,
      Break.origin, Break.position, Break.line, Break.fitness_class, par3, kpEmpty,
      KnuthPlassParagraph.add_box, KnuthPlassParagraph.add_penalty]

/-! ## Claim C6 counterexample: no feasible break, no error -/

/-- Claim C6 counterexample: par6 (one word of width 10, standard
terminator, line length 3, no shrink anywhere) admits no feasible
line, yet calc_knuth_plass_breaks returns successfully with an empty
break list: the deactivation loop never removes the last active node,
so the origin survives to selection and reconstruction yields no
breaks.  No NoFeasibleBreak error is reported. -/
theorem C6_counterexample :
    calc_knuth_plass_breaks par6 [3] 0 1 100 100 = Except.ok [] := by
  norm_num [calc_knuth_plass_breaks, run_pass, step, gather, is_feasible_breakpoint,
    compute_adjustment_ratio, available_width, line_ideal_width, sum_width, sum_stretch,
    sum_shrink, INF, new_node, line_demerits, base_demerits, fitness_class_of,
    apply_deactivations, apply_activations, add_active_node, find_insert_index,
    scan_same_line, select_min, looseness_select, loose_loop, collect_breaks,
    Break.origin, Break.position, Break.line, Break.fitness_class, Break.demerits,
    par6, kpEmpty, KnuthPlassParagraph.add_box, KnuthPlassParagraph.add_glue,
    KnuthPlassParagraph.add_penalty, List.range_succ]

/-! ## Claim C9 counterexample: empty line_lengths -/

/-- Claim C9 counterexample: with an empty line_lengths vector and a
paragraph containing no feasible breakpoint, calc_knuth_plass_breaks
returns a result (the empty break list) without reporting any error:
the source performs no emptiness check on line_lengths at all. -/
theorem C9_counterexample :
    calc_knuth_plass_breaks par9 [] 0 1 100 100 = Except.ok [] ∧
    Except.ok ([] : List Break) ≠ Except.error KPError.EmptyLineLengths := by
  constructor
  · norm_num [calc_knuth_plass_breaks, run_pass, step, gather, is_feasible_breakpoint,
      compute_adjustment_ratio, available_width, line_ideal_width, sum_width, sum_stretch,
      sum_shrink, INF, new_node, line_demerits, base_demerits, fitness_class_of,
      apply_deactivations, apply_activations, add_active_node, find_insert_index,
      scan_same_line, select_min, looseness_select, loose_loop, collect_breaks,
      Break.origin, Break.position, Break.line, Break.fitness_class, Break.demerits,
      par9, kpEmpty, KnuthPlassParagraph.add_box, List.range_succ,
      show ¬(SpecType.BOX = SpecType.PENALTY) by decide,
      show ¬(SpecType.BOX = SpecType.GLUE) by decide]
  · simp

/-! ## Constructor disequalities for SpecType, used while evaluating
concrete runs -/

@[simp] theorem box_ne_penalty : ¬(SpecType.BOX = SpecType.PENALTY) := by decide

@[simp] theorem box_ne_glue : ¬(SpecType.BOX = SpecType.GLUE) := by decide

@[simp] theorem glue_ne_penalty : ¬(SpecType.GLUE = SpecType.PENALTY) := by decide

@[simp] theorem glue_ne_box : ¬(SpecType.GLUE = SpecType.BOX) := by decide

@[simp] theorem penalty_ne_box : ¬(SpecType.PENALTY = SpecType.BOX) := by decide

@[simp] theorem penalty_ne_glue : ¬(SpecType.PENALTY = SpecType.GLUE) := by decide

/-! ## Frontier helper lemmas -/

theorem erase_break_sublist (l : List Break) (n : Break) : (erase_break l n).Sublist l := by
  induction l with
  | nil => simp [erase_break]
  | cons a rest ih =>
    simp only [erase_break]
    split
    · exact List.sublist_cons_self a rest
    · exact List.Sublist.cons₂ a ih

theorem erase_break_length (l : List Break) (n : Break) :
    l.length - 1 ≤ (erase_break l n).length := by
  induction l with
  | nil => simp [erase_break]
  | cons a rest ih =>
    simp only [erase_break]
    split
    · simp
    · simp only [List.length_cons]
      omega

theorem apply_deactivations_sublist (td : List Break) :
    ∀ active : List Break, (apply_deactivations active td).Sublist active := by
  induction td with
  | nil => intro active; simp [apply_deactivations]
  | cons n rest ih =>
    intro active
    simp only [apply_deactivations]
    split
    · exact List.Sublist.refl active
    · exact (ih (erase_break active n)).trans (erase_break_sublist active n)

theorem apply_deactivations_ne_nil (td : List Break) :
    ∀ active : List Break, active ≠ [] → apply_deactivations active td ≠ [] := by
  induction td with
  | nil => intro active h; simpa [apply_deactivations] using h
  | cons n rest ih =>
    intro active h
    simp only [apply_deactivations]
    split_ifs with hlen
    · exact h
    · refine ih _ ?_
      have h1 := erase_break_length active n
      have h3 : active.length ≠ 0 := by
        simpa [List.length_eq_zero] using h
      intro hcon
      rw [hcon] at h1
      simp at h1
      omega

theorem fii_le_length (l : List Break) (L : ℕ) : find_insert_index l L ≤ l.length := by
  induction l with
  | nil => simp [find_insert_index]
  | cons a rest ih =>
    simp only [find_insert_index, List.length_cons]
    split
    · exact Nat.succ_le_succ ih
    · exact Nat.zero_le _

theorem mem_take_fii (l : List Break) (L : ℕ) :
    ∀ x ∈ l.take (find_insert_index l L), x.line < L := by
  induction l with
  | nil => simp
  | cons a rest ih =>
    simp only [find_insert_index]
    split_ifs with ha
    · intro x hx
      rw [List.take_succ_cons] at hx
      rcases List.mem_cons.mp hx with h | h
      · rw [h]; exact ha
      · exact ih x h
    · simp

theorem mem_drop_fii (L : ℕ) : ∀ l : List Break, sorted_by_line l →
    ∀ x ∈ l.drop (find_insert_index l L), L ≤ x.line := by
  intro l
  induction l with
  | nil => intro _; simp
  | cons a rest ih =>
    intro hs
    simp only [sorted_by_line, List.pairwise_cons] at hs
    simp only [find_insert_index]
    split_ifs with ha
    · intro x hx
      rw [List.drop_succ_cons] at hx
      exact ih hs.2 x hx
    · intro x hx
      rw [List.drop_zero] at hx
      have haL : L ≤ a.line := not_lt.mp ha
      rcases List.mem_cons.mp hx with h | h
      · rw [h]; exact haL
      · exact le_trans haL (hs.1 x h)

theorem scan_false_no_dup (n : Break) : ∀ post : List Break, sorted_by_line post →
    (∀ x ∈ post, n.line ≤ x.line) → scan_same_line post n = false →
    ∀ x ∈ post, ¬(x.line = n.line ∧ x.fitness_class = n.fitness_class) := by
  intro post
  induction post with
  | nil => intro _ _ _ x hx; simp at hx
  | cons a rest ih =>
    intro hs hge hscan x hx
    simp only [sorted_by_line, List.pairwise_cons] at hs
    simp only [scan_same_line] at hscan
    rcases List.mem_cons.mp hx with h | h
    · subst h
      intro hcon
      rw [if_pos hcon.1, if_pos hcon.2] at hscan
      exact absurd hscan (by simp)
    · by_cases hl : a.line = n.line
      · rw [if_pos hl] at hscan
        by_cases hf : a.fitness_class = n.fitness_class
        · rw [if_pos hf] at hscan
          exact absurd hscan (by simp)
        · rw [if_neg hf] at hscan
          exact ih hs.2 (fun y hy => hge y (List.mem_cons_of_mem a hy)) hscan x h
      · intro hcon
        have h1 : n.line ≤ a.line := hge a (List.mem_cons_self a rest)
        have h2 : a.line ≤ x.line := hs.1 x h
        have h3 := hcon.1
        omega

theorem scan_true_of_dup (n : Break) : ∀ post : List Break, sorted_by_line post →
    (∀ x ∈ post, n.line ≤ x.line) →
    (∃ a ∈ post, a.line = n.line ∧ a.fitness_class = n.fitness_class) →
    scan_same_line post n = true := by
  intro post
  induction post with
  | nil => intro _ _ hdup; simp at hdup
  | cons a rest ih =>
    intro hs hge hdup
    simp only [sorted_by_line, List.pairwise_cons] at hs
    simp only [scan_same_line]
    obtain ⟨b, hb, hbl, hbf⟩ := hdup
    by_cases hl : a.line = n.line
    · rw [if_pos hl]
      by_cases hf : a.fitness_class = n.fitness_class
      · rw [if_pos hf]
      · rw [if_neg hf]
        rcases List.mem_cons.mp hb with h | h
        · subst h; exact absurd hbf hf
        · exact ih hs.2 (fun y hy => hge y (List.mem_cons_of_mem a hy)) ⟨b, h, hbl, hbf⟩
    · rcases List.mem_cons.mp hb with h | h
      · subst h; exact absurd hbl hl
      · have h1 : n.line ≤ a.line := hge a (List.mem_cons_self a rest)
        have h2 : a.line ≤ b.line := hs.1 b h
        omega

theorem add_active_node_ne_nil (act : List Break) (n : Break) (h : act ≠ []) :
    add_active_node act n ≠ [] := by
  simp only [add_active_node]
  split
  · exact h
  · simp

theorem mem_add_active_node (act : List Break) (n x : Break)
    (h : x ∈ add_active_node act n) : x = n ∨ x ∈ act := by
  simp only [add_active_node] at h
  split at h
  · exact Or.inr h
  · rcases List.mem_append.mp h with h1 | h1
    · exact Or.inr (List.take_subset _ _ h1)
    · rcases List.mem_cons.mp h1 with h2 | h2
      · exact Or.inl h2
      · exact Or.inr (List.drop_subset _ _ h2)

theorem add_active_node_sorted_unique (act : List Break) (n : Break)
    (hs : sorted_by_line act) (hu : unique_line_fc act) :
    sorted_by_line (add_active_node act n) ∧ unique_line_fc (add_active_node act n) := by
  simp only [add_active_node]
  split_ifs with hscan
  · exact ⟨hs, hu⟩
  · have hscan' : scan_same_line (act.drop (find_insert_index act n.line)) n = false := by
      simpa using hscan
    have htake : ∀ x ∈ act.take (find_insert_index act n.line), x.line < n.line :=
      mem_take_fii act n.line
    have hsdrop : sorted_by_line (act.drop (find_insert_index act n.line)) :=
      List.Pairwise.sublist (List.drop_sublist _ _) hs
    have hdrop : ∀ x ∈ act.drop (find_insert_index act n.line), n.line ≤ x.line :=
      mem_drop_fii n.line act hs
    have hnodup := scan_false_no_dup n (act.drop (find_insert_index act n.line))
      hsdrop hdrop hscan'
    have hsplit := List.take_append_drop (find_insert_index act n.line) act
    constructor
    · rw [sorted_by_line, List.pairwise_append]
      refine ⟨List.Pairwise.sublist (List.take_sublist _ _) hs, ?_, ?_⟩
      · rw [List.pairwise_cons]
        exact ⟨fun y hy => hdrop y hy, List.Pairwise.sublist (List.drop_sublist _ _) hs⟩
      · intro x hx y hy
        rcases List.mem_cons.mp hy with h | h
        · rw [h]; exact le_of_lt (htake x hx)
        · exact le_trans (le_of_lt (htake x hx)) (hdrop y h)
    · have hu2 : List.Pairwise
          (fun a b => a.line ≠ b.line ∨ a.fitness_class ≠ b.fitness_class)
          (act.take (find_insert_index act n.line) ++ act.drop (find_insert_index act n.line)) := by
        rw [hsplit]; exact hu
      rw [List.pairwise_append] at hu2
      rw [unique_line_fc, List.pairwise_append]
      refine ⟨hu2.1, ?_, ?_⟩
      · rw [List.pairwise_cons]
        refine ⟨?_, hu2.2.1⟩
        intro y hy
        rcases not_and_or.mp (hnodup y hy) with h | h
        · exact Or.inl (Ne.symm h)
        · exact Or.inr (Ne.symm h)
      · intro x hx y hy
        rcases List.mem_cons.mp hy with h | h
        · rw [h]
          exact Or.inl (ne_of_lt (htake x hx))
        · exact hu2.2.2 x hx y h

theorem add_active_node_drops_dup (act : List Break) (n : Break)
    (hs : sorted_by_line act)
    (hdup : ∃ a ∈ act, a.line = n.line ∧ a.fitness_class = n.fitness_class) :
    add_active_node act n = act := by
  have hdrop : ∀ x ∈ act.drop (find_insert_index act n.line), n.line ≤ x.line :=
    mem_drop_fii n.line act hs
  have hsdrop : sorted_by_line (act.drop (find_insert_index act n.line)) :=
    List.Pairwise.sublist (List.drop_sublist _ _) hs
  have hdup2 : ∃ a ∈ act.drop (find_insert_index act n.line),
      a.line = n.line ∧ a.fitness_class = n.fitness_class := by
    obtain ⟨a, ha, h1, h2⟩ := hdup
    refine ⟨a, ?_, h1, h2⟩
    have hsplit := List.take_append_drop (find_insert_index act n.line) act
    rw [← hsplit] at ha
    rcases List.mem_append.mp ha with h | h
    · have := mem_take_fii act n.line a h
      omega
    · exact h
  have hscan := scan_true_of_dup n (act.drop (find_insert_index act n.line))
    hsdrop hdrop hdup2
  simp only [add_active_node]
  rw [if_pos hscan]

theorem apply_activations_ne_nil : ∀ (ta act : List Break), act ≠ [] →
    apply_activations act ta ≠ [] := by
  intro ta
  induction ta with
  | nil => intro act h; simpa [apply_activations] using h
  | cons n rest ih =>
    intro act h
    simp only [apply_activations]
    exact ih _ (add_active_node_ne_nil act n h)

theorem mem_apply_activations : ∀ (ta act : List Break) (x : Break),
    x ∈ apply_activations act ta → x ∈ act ∨ x ∈ ta := by
  intro ta
  induction ta with
  | nil => intro act x h; exact Or.inl (by simpa [apply_activations] using h)
  | cons n rest ih =>
    intro act x h
    simp only [apply_activations] at h
    rcases ih _ x h with h1 | h1
    · rcases mem_add_active_node act n x h1 with h2 | h2
      · exact Or.inr (by simp [h2])
      · exact Or.inl h2
    · exact Or.inr (List.mem_cons_of_mem n h1)

theorem apply_activations_sorted_unique : ∀ (ta act : List Break),
    sorted_by_line act → unique_line_fc act →
    sorted_by_line (apply_activations act ta) ∧ unique_line_fc (apply_activations act ta) := by
  intro ta
  induction ta with
  | nil => intro act hs hu; simpa [apply_activations] using ⟨hs, hu⟩
  | cons n rest ih =>
    intro act hs hu
    simp only [apply_activations]
    obtain ⟨hs2, hu2⟩ := add_active_node_sorted_unique act n hs hu
    exact ih _ hs2 hu2

theorem compute_adjustment_ratio_some (par : KnuthPlassParagraph)
    (pos1 pos2 line : ℕ) (lls : List ℚ) (hlls : lls ≠ []) :
    ∃ r, compute_adjustment_ratio par pos1 pos2 line lls = some r := by
  have hav : ∃ a, available_width lls line = some a := by
    unfold available_width
    split_ifs with h
    · exact ⟨_, rfl⟩
    · cases lls with
      | nil => exact absurd rfl hlls
      | cons a rest => exact ⟨_, List.getLast?_eq_getLast (a :: rest) (by simp)⟩
  obtain ⟨a, ha⟩ := hav
  unfold compute_adjustment_ratio
  rw [ha]
  exact ⟨_, rfl⟩

theorem gather_ok (par : KnuthPlassParagraph) (lls : List ℚ) (tol fd fl : ℚ) (B : ℕ)
    (hlls : lls ≠ []) : ∀ active : List Break,
    ∃ pr, gather par lls tol fd fl B active = .ok pr := by
  intro active
  induction active with
  | nil => exact ⟨([], []), rfl⟩
  | cons A rest ih =>
    obtain ⟨⟨td, ta⟩, hpr⟩ := ih
    obtain ⟨r, hr⟩ := compute_adjustment_ratio_some par A.position B A.line lls hlls
    refine ⟨⟨if r < -1 ∨ INF < par.penalty.getD B 0 then A :: td else td,
             if -1 ≤ r ∧ r ≤ tol then new_node par fd fl B A r :: ta else ta⟩, ?_⟩
    simp only [gather, hr, hpr]

theorem gather_error (par : KnuthPlassParagraph) (lls : List ℚ) (tol fd fl : ℚ) (B : ℕ) :
    ∀ (active : List Break) (e : KPError),
    gather par lls tol fd fl B active = .error e → e = KPError.IndexOutOfRange := by
  intro active
  induction active with
  | nil => intro e h; exact Except.noConfusion h
  | cons A rest ih =>
    intro e h
    cases hr : compute_adjustment_ratio par A.position B A.line lls with
    | none =>
      simp only [gather, hr] at h
      injection h with h2
      exact h2.symm
    | some r =>
      cases hg : gather par lls tol fd fl B rest with
      | error e2 =>
        simp only [gather, hr, hg] at h
        injection h with h2
        subst h2
        exact ih _ hg
      | ok pr =>
        obtain ⟨td, ta⟩ := pr
        simp only [gather, hr, hg] at h
        exact Except.noConfusion h

theorem gather_toActivate (par : KnuthPlassParagraph) (lls : List ℚ)
    (tol fd fl : ℚ) (B : ℕ) : ∀ (active td ta : List Break),
    gather par lls tol fd fl B active = .ok (td, ta) →
    ∀ n ∈ ta, ∃ A ∈ active, ∃ r : ℚ,
      (-1 ≤ r ∧ r ≤ tol) ∧ n = new_node par fd fl B A r := by
  intro active
  induction active with
  | nil =>
    intro td ta h n hn
    simp only [gather] at h
    injection h with h2
    injection h2 with h3 h4
    subst h4
    simp at hn
  | cons A rest ih =>
    intro td ta h n hn
    cases hr : compute_adjustment_ratio par A.position B A.line lls with
    | none =>
      simp only [gather, hr] at h
      exact Except.noConfusion h
    | some r =>
      cases hg : gather par lls tol fd fl B rest with
      | error e =>
        simp only [gather, hr, hg] at h
        exact Except.noConfusion h
      | ok pr =>
        obtain ⟨td2, ta2⟩ := pr
        simp only [gather, hr, hg] at h
        injection h with h2
        injection h2 with h3 h4
        subst h4
        split_ifs at hn with hcond
        · rcases List.mem_cons.mp hn with h5 | h5
          · exact ⟨A, List.mem_cons_self A rest, r, hcond, h5⟩
          · obtain ⟨A2, hA2, r2, hr2, hn2⟩ := ih td2 ta2 hg n h5
            exact ⟨A2, List.mem_cons_of_mem A hA2, r2, hr2, hn2⟩
        · obtain ⟨A2, hA2, r2, hr2, hn2⟩ := ih td2 ta2 hg n hn
          exact ⟨A2, List.mem_cons_of_mem A hA2, r2, hr2, hn2⟩

theorem step_inv (par : KnuthPlassParagraph) (lls : List ℚ) (tol fd fl : ℚ) (B : ℕ)
    (active active2 : List Break) (hinv : frontier_inv tol active)
    (h : step par lls tol fd fl active B = .ok active2) :
    frontier_inv tol active2 := by
  obtain ⟨hne, hs, hu, hg⟩ := hinv
  simp only [step] at h
  split_ifs at h with hfeas
  · cases hgath : gather par lls tol fd fl B active with
    | error e =>
      simp only [hgath] at h
      exact Except.noConfusion h
    | ok pr =>
      obtain ⟨td, ta⟩ := pr
      simp only [hgath] at h
      injection h with h2
      subst h2
      have hne1 : apply_deactivations active td ≠ [] :=
        apply_deactivations_ne_nil td active hne
      have hs1 : sorted_by_line (apply_deactivations active td) :=
        List.Pairwise.sublist (apply_deactivations_sublist td active) hs
      have hu1 : unique_line_fc (apply_deactivations active td) :=
        List.Pairwise.sublist (apply_deactivations_sublist td active) hu
      obtain ⟨hs2, hu2⟩ := apply_activations_sorted_unique ta _ hs1 hu1
      refine ⟨apply_activations_ne_nil ta _ hne1, hs2, hu2, ?_⟩
      intro n hn
      rcases mem_apply_activations ta _ n hn with h1 | h1
      · exact hg n (List.Sublist.subset (apply_deactivations_sublist td active) h1)
      · obtain ⟨A, hA, r, hr2, hneq⟩ := gather_toActivate par lls tol fd fl B active td ta hgath n h1
        subst hneq
        have hgA := hg A hA
        simp only [new_node, good_chain]
        exact ⟨hr2.1, hr2.2, hgA⟩
  · injection h with h2
    subst h2
    exact ⟨hne, hs, hu, hg⟩

theorem step_ok (par : KnuthPlassParagraph) (lls : List ℚ) (tol fd fl : ℚ) (B : ℕ)
    (active : List Break) (hlls : lls ≠ []) :
    ∃ active2, step par lls tol fd fl active B = .ok active2 := by
  simp only [step]
  split_ifs with hfeas
  · obtain ⟨⟨td, ta⟩, hg⟩ := gather_ok par lls tol fd fl B hlls active
    rw [hg]
    exact ⟨_, rfl⟩
  · exact ⟨active, rfl⟩

theorem step_error (par : KnuthPlassParagraph) (lls : List ℚ) (tol fd fl : ℚ) (B : ℕ)
    (active : List Break) (e : KPError)
    (h : step par lls tol fd fl active B = .error e) : e = KPError.IndexOutOfRange := by
  simp only [step] at h
  split_ifs at h with hfeas
  · cases hg : gather par lls tol fd fl B active with
    | error e2 =>
      simp only [hg] at h
      injection h with h2
      subst h2
      exact gather_error par lls tol fd fl B active _ hg
    | ok pr =>
      obtain ⟨td, ta⟩ := pr
      simp only [hg] at h
      exact Except.noConfusion h

theorem run_pass_inv (par : KnuthPlassParagraph) (lls : List ℚ) (tol fd fl : ℚ) :
    ∀ (Bs : List ℕ) (act0 act1 : List Break), frontier_inv tol act0 →
    run_pass par lls tol fd fl Bs act0 = .ok act1 → frontier_inv tol act1 := by
  intro Bs
  induction Bs with
  | nil =>
    intro act0 act1 hinv h
    simp only [run_pass] at h
    injection h with h2
    subst h2
    exact hinv
  | cons B rest ih =>
    intro act0 act1 hinv h
    cases hstep : step par lls tol fd fl act0 B with
    | error e =>
      simp only [run_pass, hstep] at h
      exact Except.noConfusion h
    | ok act2 =>
      simp only [run_pass, hstep] at h
      exact ih act2 act1 (step_inv par lls tol fd fl B act0 act2 hinv hstep) h

theorem run_pass_total (par : KnuthPlassParagraph) (lls : List ℚ) (tol fd fl : ℚ)
    (hlls : lls ≠ []) : ∀ (Bs : List ℕ) (act0 : List Break),
    ∃ act1, run_pass par lls tol fd fl Bs act0 = .ok act1 := by
  intro Bs
  induction Bs with
  | nil => intro act0; exact ⟨act0, rfl⟩
  | cons B rest ih =>
    intro act0
    obtain ⟨act2, h2⟩ := step_ok par lls tol fd fl B act0 hlls
    obtain ⟨act3, h3⟩ := ih act2
    exact ⟨act3, by simp only [run_pass, h2, h3]⟩

theorem run_pass_error (par : KnuthPlassParagraph) (lls : List ℚ) (tol fd fl : ℚ) :
    ∀ (Bs : List ℕ) (act0 : List Break) (e : KPError),
    run_pass par lls tol fd fl Bs act0 = .error e → e = KPError.IndexOutOfRange := by
  intro Bs
  induction Bs with
  | nil =>
    intro act0 e h
    simp only [run_pass] at h
    exact Except.noConfusion h
  | cons B rest ih =>
    intro act0 e h
    cases hstep : step par lls tol fd fl act0 B with
    | error e2 =>
      simp only [run_pass, hstep] at h
      injection h with h2
      subst h2
      exact step_error par lls tol fd fl B act0 _ hstep
    | ok act2 =>
      simp only [run_pass, hstep] at h
      exact ih act2 e h

theorem foldl_min_mem : ∀ (rest : List Break) (A0 : Break),
    rest.foldl (fun A br => if br.demerits < A.demerits then br else A) A0 ∈ A0 :: rest := by
  intro rest
  induction rest with
  | nil => intro A0; simp
  | cons br rest ih =>
    intro A0
    simp only [List.foldl_cons]
    have h := ih (if br.demerits < A0.demerits then br else A0)
    rcases List.mem_cons.mp h with h1 | h1
    · rw [h1]
      split_ifs
      · simp
      · simp
    · simp [h1]

theorem select_min_mem (act : List Break) (A : Break) (h : select_min act = some A) :
    A ∈ act := by
  cases act with
  | nil => exact Option.noConfusion h
  | cons A0 rest =>
    simp only [select_min] at h
    injection h with h2
    rw [← h2]
    exact foldl_min_mem rest A0

theorem select_min_isSome (act : List Break) (hne : act ≠ []) :
    ∃ A, select_min act = some A := by
  cases act with
  | nil => exact absurd rfl hne
  | cons A0 rest => exact ⟨_, rfl⟩

theorem loose_loop_mem (lo : ℚ) (A : Break) : ∀ (l : List Break) (best d : ℕ)
    (b : Option Break) (br : Break), loose_loop lo A l best d b = some br →
    b = some br ∨ br ∈ l := by
  intro l
  induction l with
  | nil => intro best d b br h; exact Or.inl (by simpa [loose_loop] using h)
  | cons x rest ih =>
    intro best d b br h
    simp only [loose_loop] at h
    split_ifs at h with h1 h2
    · rcases ih _ _ _ _ h with h3 | h3
      · injection h3 with h4
        subst h4
        exact Or.inr (List.mem_cons_self x rest)
      · exact Or.inr (List.mem_cons_of_mem x h3)
    · rcases ih _ _ _ _ h with h3 | h3
      · injection h3 with h4
        subst h4
        exact Or.inr (List.mem_cons_self x rest)
      · exact Or.inr (List.mem_cons_of_mem x h3)
    · rcases ih _ _ _ _ h with h3 | h3
      · exact Or.inl h3
      · exact Or.inr (List.mem_cons_of_mem x h3)

theorem collect_breaks_ratio (tol : ℚ) :
    ∀ A : Break, good_chain tol A → ∀ br ∈ collect_breaks A,
      -1 ≤ br.ratio ∧ br.ratio ≤ tol
  | .mk p l f d r none => by
    intro _ br hbr
    simp [collect_breaks] at hbr
  | .mk p l f d r (some prev) => by
    intro hgc br hbr
    simp only [collect_breaks] at hbr
    have hgc2 : -1 ≤ r ∧ r ≤ tol ∧ good_chain tol prev := hgc
    rcases List.mem_append.mp hbr with h | h
    · exact collect_breaks_ratio tol prev hgc2.2.2 br h
    · rcases List.mem_cons.mp h with h2 | h2
      · subst h2
        exact ⟨hgc2.1, hgc2.2.1⟩
      · simp at h2

theorem origin_frontier_inv (tol : ℚ) : frontier_inv tol [Break.origin] := by
  refine ⟨by simp, ?_, ?_, ?_⟩
  · simp [sorted_by_line]
  · simp [unique_line_fc]
  · intro n hn
    simp at hn
    subst hn
    simp [Break.origin, good_chain]

/-! ## Claim C6 amended: the search never fails -/

/-- Claim C6 amended: the frontier can never become empty (the
deactivation loop refuses to remove the last active node), so for any
paragraph, any non-empty line_lengths and looseness 0,
calc_knuth_plass_breaks always returns a break list; when no feasible
break survives, that list is empty (see the counterexample).  No
NoFeasibleBreak error exists in the code. -/
theorem C6_amended_no_failure (par : KnuthPlassParagraph) (lls : List ℚ)
    (tol fd fl : ℚ) (hlls : lls ≠ []) :
    ∃ bs, calc_knuth_plass_breaks par lls 0 tol fd fl = Except.ok bs := by
  obtain ⟨act, hact⟩ := run_pass_total par lls tol fd fl hlls
    (List.range par.type.length) [Break.origin]
  have hinv := run_pass_inv par lls tol fd fl (List.range par.type.length)
    [Break.origin] act (origin_frontier_inv tol) hact
  obtain ⟨A, hA⟩ := select_min_isSome act hinv.1
  refine ⟨collect_breaks A, ?_⟩
  simp only [calc_knuth_plass_breaks, hact, hA]
  norm_num

/-- Witness for the amended claim C6 at a concrete input. -/
theorem C6_witness :
    ([3] : List ℚ) ≠ [] ∧
    ∃ bs, calc_knuth_plass_breaks par6 [3] 0 1 100 100 = Except.ok bs := by
  constructor
  · simp
  · exact C6_amended_no_failure par6 [3] 1 100 100 (by simp)

/-! ## Claim C7: returned ratios lie in [-1, tolerance] -/

/-- Claim C7 confirmed (for arbitrary inputs, the terminator convention
is not even needed): every break in a returned break list was created
by the main loop under the guard -1 <= r <= tolerance, so its recorded
ratio lies in the closed interval [-1, tolerance]. -/
theorem C7_ratio_in_range (par : KnuthPlassParagraph) (lls : List ℚ)
    (lo tol fd fl : ℚ) (bs : List Break)
    (h : calc_knuth_plass_breaks par lls lo tol fd fl = Except.ok bs) :
    ∀ br ∈ bs, -1 ≤ br.ratio ∧ br.ratio ≤ tol := by
  cases hrun : run_pass par lls tol fd fl (List.range par.type.length) [Break.origin] with
  | error e =>
    simp only [calc_knuth_plass_breaks, hrun] at h
    exact Except.noConfusion h
  | ok act =>
    have hinv := run_pass_inv par lls tol fd fl (List.range par.type.length)
      [Break.origin] act (origin_frontier_inv tol) hrun
    cases hsel : select_min act with
    | none =>
      simp only [calc_knuth_plass_breaks, hrun, hsel] at h
      exact Except.noConfusion h
    | some A =>
      by_cases hlo : lo ≠ 0
      · cases hls : looseness_select lo A act with
        | none =>
          simp only [calc_knuth_plass_breaks, hrun, hsel, hls, if_pos hlo] at h
          exact Except.noConfusion h
        | some b =>
          simp only [calc_knuth_plass_breaks, hrun, hsel, hls, if_pos hlo] at h
          injection h with h2
          subst h2
          have hb : b ∈ act := by
            rcases loose_loop_mem lo A act 0 10000 none b
              (by simpa [looseness_select] using hls) with h3 | h3
            · exact Option.noConfusion h3
            · exact h3
          exact collect_breaks_ratio tol b (hinv.2.2.2 b hb)
      · simp only [calc_knuth_plass_breaks, hrun, hsel, if_neg hlo] at h
        injection h with h2
        subst h2
        exact collect_breaks_ratio tol A (hinv.2.2.2 A (select_min_mem act A hsel))

/-- Witness for claim C7: a concrete two-word run returning one break
with ratio 0. -/
theorem C7_witness :
    calc_knuth_plass_breaks parW [2] 0 1 100 100 = Except.ok bsW ∧
    ∀ br ∈ bsW, -1 ≤ br.ratio ∧ br.ratio ≤ 1 := by
  have h : calc_knuth_plass_breaks parW [2] 0 1 100 100 = Except.ok bsW := by
    norm_num [calc_knuth_plass_breaks, run_pass, step, gather, is_feasible_breakpoint,
      compute_adjustment_ratio, available_width, line_ideal_width, sum_width, sum_stretch,
      sum_shrink, INF, new_node, line_demerits, base_demerits, fitness_class_of,
      apply_deactivations, apply_activations, add_active_node, find_insert_index,
      scan_same_line, erase_break, select_min, collect_breaks,
      Break.origin, Break.position, Break.line, Break.fitness_class, Break.demerits,
      parW, bsW, kpEmpty, KnuthPlassParagraph.add_box, KnuthPlassParagraph.add_glue,
      KnuthPlassParagraph.add_penalty, List.range_succ]
  exact ⟨h, C7_ratio_in_range parW [2] 0 1 100 100 bsW h⟩

/-! ## Claim C8: frontier uniqueness -/

/-- Claim C8 confirmed: after any prefix of the forward pass the
frontier never holds two nodes with the same (line, fitness_class)
pair, and inserting a node whose (line, fitness_class) already occurs
leaves the frontier unchanged (the candidate is silently dropped). -/
theorem C8_frontier_dedup (par : KnuthPlassParagraph) (lls : List ℚ) (tol fd fl : ℚ)
    (Bs : List ℕ) (active : List Break)
    (h : run_pass par lls tol fd fl Bs [Break.origin] = .ok active) :
    unique_line_fc active ∧
    ∀ node : Break,
      (∃ a ∈ active, a.line = node.line ∧ a.fitness_class = node.fitness_class) →
      add_active_node active node = active := by
  have hinv := run_pass_inv par lls tol fd fl Bs [Break.origin] active
    (origin_frontier_inv tol) h
  exact ⟨hinv.2.2.1, fun node hdup =>
    add_active_node_drops_dup active node hinv.2.1 hdup⟩

/-- Witness for claim C8 at the concrete parW frontier. -/
theorem C8_witness :
    unique_line_fc bsW ∧
    add_active_node bsW (Break.mk 9 1 1 7 0 none) = bsW := by
  have h : run_pass parW [2] 1 100 100 (List.range 8) [Break.origin] = Except.ok bsW := by
    norm_num [run_pass, step, gather, is_feasible_breakpoint,
      compute_adjustment_ratio, available_width, line_ideal_width, sum_width, sum_stretch,
      sum_shrink, INF, new_node, line_demerits, base_demerits, fitness_class_of,
      apply_deactivations, apply_activations, add_active_node, find_insert_index,
      scan_same_line, erase_break,
      Break.origin, Break.position, Break.line, Break.fitness_class, Break.demerits,
      parW, bsW, kpEmpty, KnuthPlassParagraph.add_box, KnuthPlassParagraph.add_glue,
      KnuthPlassParagraph.add_penalty, List.range_succ]
  have h2 := C8_frontier_dedup parW [2] 1 100 100 (List.range 8) bsW h
  refine ⟨h2.1, h2.2 (Break.mk 9 1 1 7 0 none) ?_⟩
  refine ⟨Break.mk 2 1 1 1 0 (some Break.origin), ?_, ?_, ?_⟩
  · simp [bsW]
  · simp [Break.line]
  · simp [Break.fitness_class]

/-! ## Claim C9 amended: no EmptyLineLengths error exists -/

/-- Claim C9 amended: the source never checks line_lengths for
emptiness and has no EmptyLineLengths error; the only failure the
embedded code can produce is the out-of-range access (an empty
line_lengths reaching vector::back(), or the null dereference of the
looseness block), surfaced as IndexOutOfRange. -/
theorem C9_amended_error_is_oor (par : KnuthPlassParagraph) (lls : List ℚ)
    (lo tol fd fl : ℚ) (e : KPError)
    (h : calc_knuth_plass_breaks par lls lo tol fd fl = Except.error e) :
    e = KPError.IndexOutOfRange := by
  cases hrun : run_pass par lls tol fd fl (List.range par.type.length) [Break.origin] with
  | error e2 =>
    simp only [calc_knuth_plass_breaks, hrun] at h
    injection h with h2
    subst h2
    exact run_pass_error par lls tol fd fl (List.range par.type.length) [Break.origin] _ hrun
  | ok act =>
    cases hsel : select_min act with
    | none =>
      simp only [calc_knuth_plass_breaks, hrun, hsel] at h
      injection h with h2
      exact h2.symm
    | some A =>
      by_cases hlo : lo ≠ 0
      · cases hls : looseness_select lo A act with
        | none =>
          simp only [calc_knuth_plass_breaks, hrun, hsel, hls, if_pos hlo] at h
          injection h with h2
          exact h2.symm
        | some b =>
          simp only [calc_knuth_plass_breaks, hrun, hsel, hls, if_pos hlo] at h
          exact Except.noConfusion h
      · simp only [calc_knuth_plass_breaks, hrun, hsel, if_neg hlo] at h
        exact Except.noConfusion h

/-- Witness for the amended claim C9: a run that does reach the
out-of-range access (empty line_lengths with a feasible breakpoint)
produces IndexOutOfRange, not EmptyLineLengths. -/
theorem C9_witness :
    calc_knuth_plass_breaks par3 [] 0 1 100 100 = Except.error KPError.IndexOutOfRange ∧
    KPError.IndexOutOfRange ≠ KPError.EmptyLineLengths := by
  have h : calc_knuth_plass_breaks par3 [] 0 1 100 100 =
      Except.error KPError.IndexOutOfRange := by
    norm_num [calc_knuth_plass_breaks, run_pass, step, gather, is_feasible_breakpoint,
      compute_adjustment_ratio, available_width, line_ideal_width, sum_width, sum_stretch,
      sum_shrink, INF, select_min, collect_breaks, Break.origin, Break.position, Break.line,
      par3, kpEmpty, KnuthPlassParagraph.add_box, KnuthPlassParagraph.add_penalty,
      List.range_succ, show ¬(SpecType.BOX = SpecType.PENALTY) by decide,
      show ¬(SpecType.BOX = SpecType.GLUE) by decide]
  constructor
  · exact h.trans (congrArg Except.error
      (C9_amended_error_is_oor par3 [] 0 1 100 100 KPError.IndexOutOfRange h))
  · simp

end KnuthPlass
